import Mathlib

/-!
Shallow embedding of the gentoid/mqtt-client MQTT 3.1.1 client core, translated from
the Rust sources (src/protocol.rs, src/parser.rs, src/packet.rs, src/packet/encode.rs,
src/packet/decode.rs, src/packet/publish.rs, src/packet/subscribe.rs, src/client.rs,
src/keep_alive.rs, src/session.rs, src/incoming.rs, src/packet_id_pool.rs, src/lib.rs),
together with theorems settling the behavioural claims about it.

Machine integers are modelled as Nat with explicit reductions (% 256, % 65536) where the
Rust code casts or wraps.  Rust methods on `&mut self` returning `Result` are modelled as
functions `State -> (Except MError A) x State`, so the state mutated before an error is
kept, exactly as the Rust borrow leaves it.  Byte buffers are lists of Nat.
-/

namespace MqttClient

/-- The crate error enum, from src/lib.rs. -/
inductive MError where
  | invalidFlags
  | malformedRemainingLength
  | invalidPacketType
  | malformedPacket
  | invalidConnectReturnCode
  | vectorIsFull
  | invalidQoS
  | invalidUtf8
  | encodeNotImplemented
  | unexpectedEof
  | transportError
  | remoteClosed
  | unsupportedIncomingPacket
  | bufferTooSmall
  | timeError
  | timedOut
  | protocolViolation
  | noPacketIdAvailable
  | subVectorIsFull
  | wrongTopicToUnsubscribe
  | unsubscribed
  | pingOutstanding
  | queueRangeError
  deriving DecidableEq, Repr

/-- MQTT control packet types, from src/protocol.rs (`PacketType`, v3.1.1 variants). -/
inductive PacketType where
  | connect
  | connAck
  | publish
  | pubAck
  | pubRec
  | pubRel
  | pubComp
  | subscribe
  | subAck
  | unsubscribe
  | unsubAck
  | pingReq
  | pingResp
  | disconnect
  deriving DecidableEq, Repr

/-- The `#[repr(u8)]` discriminant of each packet type (src/protocol.rs). -/
def PacketType.toNat : PacketType → Nat
  | .connect => 1
  | .connAck => 2
  | .publish => 3
  | .pubAck => 4
  | .pubRec => 5
  | .pubRel => 6
  | .pubComp => 7
  | .subscribe => 8
  | .subAck => 9
  | .unsubscribe => 10
  | .unsubAck => 11
  | .pingReq => 12
  | .pingResp => 13
  | .disconnect => 14

/-- `PacketType::validate_flags` from src/protocol.rs, verbatim: PUBLISH accepts any
flag nibble; PUBREL, SUBSCRIBE and UNSUBSCRIBE require the literal `0b0100`; every
other type requires 0. -/
def PacketType.validateFlags (t : PacketType) (flags : Nat) : Bool :=
  match t with
  | .publish => true
  | .pubRel => flags == 0b0100
  | .subscribe => flags == 0b0100
  | .unsubscribe => flags == 0b0100
  | _ => flags == 0

/-- Modelled from the spec: `PacketType::try_from` in src/protocol.rs is left `todo!()`;
section 6 of the spec assigns the values 1..=14 to the fourteen v3.1.1 types and makes any
other high nibble the wire-format error `InvalidPacketType`. -/
def PacketType.tryFrom (v : Nat) : Except MError PacketType :=
  match v with
  | 1 => .ok .connect
  | 2 => .ok .connAck
  | 3 => .ok .publish
  | 4 => .ok .pubAck
  | 5 => .ok .pubRec
  | 6 => .ok .pubRel
  | 7 => .ok .pubComp
  | 8 => .ok .subscribe
  | 9 => .ok .subAck
  | 10 => .ok .unsubscribe
  | 11 => .ok .unsubAck
  | 12 => .ok .pingReq
  | 13 => .ok .pingResp
  | 14 => .ok .disconnect
  | _ => .error .invalidPacketType

/-- `parse_first_byte` from src/parser.rs: split the first fixed-header byte into type
(high nibble) and flag nibble, rejecting invalid flags with `InvalidFlags`. -/
def parseFirstByte (byte : Nat) : Except MError (PacketType × Nat) := do
  let packetType ← PacketType.tryFrom (byte >>> 4)
  let flags := byte &&& 0x0F
  if packetType.validateFlags flags then
    pure (packetType, flags)
  else
    throw .invalidFlags

/-- QoS levels, from src/packet.rs. -/
inductive QoS where
  | atMostOnce
  | atLeastOnce
  | exactlyOnce
  deriving DecidableEq, Repr

def QoS.toNat : QoS → Nat
  | .atMostOnce => 0
  | .atLeastOnce => 1
  | .exactlyOnce => 2

/-- `TryFrom<u8> for QoS` from src/packet.rs. -/
def QoS.tryFrom (v : Nat) : Except MError QoS :=
  match v with
  | 0 => .ok .atMostOnce
  | 1 => .ok .atLeastOnce
  | 2 => .ok .exactlyOnce
  | _ => .error .invalidQoS

/-- PUBLISH fixed-header flags, from src/packet/publish.rs (`Flags`). -/
structure PubFlags where
  dup : Bool
  qos : QoS
  retain : Bool
  deriving DecidableEq, Repr

/-- `From<&Flags> for u8` in src/packet/publish.rs: `dup << 3 | qos << 1 | retain`. -/
def PubFlags.toByte (f : PubFlags) : Nat :=
  ((cond f.dup 1 0) <<< 3) ||| (f.qos.toNat <<< 1) ||| (cond f.retain 1 0)

/-- `TryFrom<u8> for Flags` in src/packet/publish.rs: decode dup/qos/retain and reject
`DUP=1` with `QoS=0` as `MalformedPacket`. -/
def PubFlags.tryFrom (v : Nat) : Except MError PubFlags := do
  let dup := (v &&& 0b1000) != 0
  let qos ← QoS.tryFrom ((v >>> 1) &&& 0b11)
  let retain := (v &&& 0b0001) != 0
  if qos == QoS.atMostOnce && dup then
    throw .malformedPacket
  pure { dup := dup, qos := qos, retain := retain }

/-- The write cursor of src/packet/encode.rs over a fixed-capacity byte buffer; `out` is
the byte list written so far (`written()`), `cap` the underlying buffer length. -/
structure WCursor where
  cap : Nat
  out : List Nat
  deriving DecidableEq, Repr

def WCursor.remainingCap (c : WCursor) : Nat := c.cap - c.out.length

/-- `Cursor::ensure_remaining`: fail `UnexpectedEof` when the free space is short. -/
def WCursor.ensureRemaining (c : WCursor) (n : Nat) : Except MError Unit :=
  if c.remainingCap < n then throw .unexpectedEof else pure ()

def WCursor.writeU8 (c : WCursor) (b : Nat) : Except MError WCursor := do
  c.ensureRemaining 1
  pure { c with out := c.out ++ [b % 256] }

/-- `Cursor::write_u16`: big-endian bytes of the 16-bit value. -/
def WCursor.writeU16 (c : WCursor) (v : Nat) : Except MError WCursor := do
  c.ensureRemaining 2
  pure { c with out := c.out ++ [v / 256 % 256, v % 256] }

def WCursor.writeBytes (c : WCursor) (bytes : List Nat) : Except MError WCursor := do
  c.ensureRemaining bytes.length
  pure { c with out := c.out ++ bytes.map (· % 256) }

/-- `Cursor::write_binary_chunk`: 16-bit length (the Rust `as u16` cast) then the bytes. -/
def WCursor.writeBinaryChunk (c : WCursor) (bytes : List Nat) : Except MError WCursor := do
  let c ← c.writeU16 (bytes.length % 65536)
  c.writeBytes bytes

/-- The loop body of `remaining_length` in src/packet/encode.rs, with explicit fuel; the
source loop runs at most 4 iterations before erroring, so fuel 5 is exact. -/
def remainingLengthLoop : Nat → Nat → Nat → WCursor → Except MError WCursor
  | 0, _, _, _ => throw .malformedPacket
  | fuel + 1, len, i, c => do
    let byte := len % 128
    let len2 := len / 128
    let byte := if len2 > 0 then byte ||| 0x80 else byte
    let c ← c.writeU8 byte
    let i := i + 1
    if len2 == 0 then
      pure c
    else if i == 4 then
      throw .malformedPacket
    else
      remainingLengthLoop fuel len2 i c

/-- `remaining_length` from src/packet/encode.rs: base-128 encoding, 1..=4 bytes. -/
def remainingLength (len : Nat) (c : WCursor) : Except MError WCursor :=
  remainingLengthLoop 5 len 0 c

/-- A PUBLISH packet, from src/packet/publish.rs; topic and payload are the borrowed byte
slices (`buffer::String` / `buffer::Slice`) as byte lists. -/
structure Publish where
  flags : PubFlags
  topic : List Nat
  packetId : Option Nat
  payload : List Nat
  deriving DecidableEq, Repr

/-- `EncodePacket::required_space for &Publish`: topic (`String::required_space` =
len + 2), optional 2-byte packet id, payload (`Slice::required_space` = len + 2). -/
def Publish.requiredSpace (p : Publish) : Nat :=
  (p.topic.length + 2) + (match p.packetId with | some _ => 2 | none => 0)
    + (p.payload.length + 2)

/-- `EncodePacket::encode_body for &Publish` in src/packet/publish.rs: the topic is
encoded via `String::encode` (write_binary_chunk), the optional packet id as a raw u16,
and the payload via `Slice::encode`, which is also `write_binary_chunk` (src/buffer.rs). -/
def Publish.encodeBody (p : Publish) (c : WCursor) : Except MError WCursor := do
  let c ← c.writeBinaryChunk p.topic
  let c ← match p.packetId with
    | some id => c.writeU16 id
    | none => pure c
  c.writeBinaryChunk p.payload

/-- `encode_packet` in src/packet.rs specialised to PUBLISH: first byte is
`type << 4 | (flags & 0x0F)`, then the remaining length (`required_space`), then the body. -/
def Publish.encodePacket (p : Publish) (c : WCursor) : Except MError WCursor := do
  let c ← c.writeU8 ((PacketType.publish.toNat <<< 4) ||| (p.flags.toByte &&& 0x0F))
  let c ← remainingLength p.requiredSpace c
  p.encodeBody c

/-- `empty_body` in src/packet.rs, verbatim: header byte `(type << 4) | 0b0010`, then a
zero remaining-length byte.  Used for PINGREQ, PINGRESP and DISCONNECT. -/
def emptyBody (c : WCursor) (packetType : PacketType) : Except MError WCursor := do
  let c ← c.writeU8 ((packetType.toNat <<< 4) ||| 0b0010)
  c.writeU8 0

/-- Read cursor over a packet body (the commented-out `decode::Cursor` of
src/packet/decode.rs, which src/packet.rs and src/packet/publish.rs call into): the
state is the unread suffix of the byte slice. -/
def readU8 (rest : List Nat) : Except MError (Nat × List Nat) :=
  match rest with
  | [] => throw .unexpectedEof
  | b :: r => pure (b, r)

def readU16 (rest : List Nat) : Except MError (Nat × List Nat) :=
  match rest with
  | b1 :: b2 :: r => pure (b1 * 256 + b2, r)
  | _ => throw .unexpectedEof

/-- `read_bytes(n)`: take n bytes, `UnexpectedEof` when fewer remain. -/
def readBytes (rest : List Nat) (n : Nat) : Except MError (List Nat × List Nat) :=
  if rest.length < n then throw .unexpectedEof
  else pure (rest.take n, rest.drop n)

/-- `read_binary`: 16-bit length then that many bytes. -/
def readBinary (rest : List Nat) : Except MError (List Nat × List Nat) := do
  let (len, r) ← readU16 rest
  readBytes r len

/-- `Publish::decode` from src/packet/publish.rs: flags from the fixed-header nibble,
length-prefixed topic, a non-zero packet id only when QoS >= 1 (`PacketId::try_from`
rejects 0 as `MalformedPacket`), and the payload as ALL remaining bytes
(`read_bytes(cursor.remaining())`, no length prefix). -/
def Publish.decode (flagsByte : Nat) (body : List Nat) : Except MError Publish := do
  let flags ← PubFlags.tryFrom flagsByte
  let (topic, r) ← readBinary body
  let (packetId, r) ← match flags.qos with
    | QoS.atMostOnce => pure ((none : Option Nat), r)
    | _ => do
      let (v, r) ← readU16 r
      if v == 0 then throw .malformedPacket
      pure (some v, r)
  let payload := r
  pure { flags := flags, topic := topic, packetId := packetId, payload := payload }

/-- An `embedded_time::rate::Fraction`: a ratio of naturals (num / den). -/
structure Fraction where
  num : Nat
  den : Nat
  deriving DecidableEq, Repr

/-- An `embedded_time::duration::Generic` value: an integer tick count and a scaling
fraction; the physical duration it denotes is `integer * num / den` seconds. -/
structure GenericDur where
  integer : Nat
  scaling : Fraction
  deriving DecidableEq, Repr

/-- `PartialOrd` on Generic durations compares the denoted values; exactly, by cross
multiplication. -/
def GenericDur.le (a b : GenericDur) : Bool :=
  decide (a.integer * a.scaling.num * b.scaling.den ≤ b.integer * b.scaling.num * a.scaling.den)

/-- The keep-alive component of src/keep_alive.rs.  Clock instants are tick counts
(Nat); the clock scaling fraction is passed alongside, as `embedded_time` carries it in
the clock type. -/
structure ModKeepAlive where
  keepAlive : GenericDur
  halfKeepAlive : GenericDur
  lastActivity : Nat
  pingOutstanding : Bool
  enabled : Bool
  deriving DecidableEq, Repr

/-- `KeepAlive::try_new` in src/keep_alive.rs: enabled iff the interval integer is
non-zero; the half interval keeps the integer and divides the scaling fraction by
`Fraction::from_integer(2)` — value-wise, the denominator doubles. -/
def ModKeepAlive.tryNew (clockNow : Nat) (keepAlive : GenericDur) : ModKeepAlive :=
  let enabled := keepAlive.integer != 0
  let halfKeepAlive :=
    if enabled then
      { integer := keepAlive.integer,
        scaling := ⟨keepAlive.scaling.num, keepAlive.scaling.den * 2⟩ }
    else keepAlive
  { keepAlive := keepAlive, halfKeepAlive := halfKeepAlive, lastActivity := clockNow,
    pingOutstanding := false, enabled := enabled }

/-- `checked_duration_since` of the last activity: fails `TimeError` when time went
backwards, else the elapsed ticks at the clock scaling. -/
def ModKeepAlive.elapsed (scal : Fraction) (st : ModKeepAlive) (now : Nat) :
    Except MError GenericDur :=
  if now < st.lastActivity then throw .timeError
  else pure { integer := now - st.lastActivity, scaling := scal }

/-- `KeepAlive::should_ping` in src/keep_alive.rs. -/
def ModKeepAlive.shouldPing (scal : Fraction) (st : ModKeepAlive) (now : Nat) :
    Except MError (Bool × ModKeepAlive) := do
  if !st.enabled || st.pingOutstanding then
    pure (false, st)
  else
    let e ← st.elapsed scal now
    if st.halfKeepAlive.le e then
      pure (true, { st with pingOutstanding := true })
    else
      pure (false, st)

/-- `KeepAlive::timed_out` in src/keep_alive.rs. -/
def ModKeepAlive.timedOut (scal : Fraction) (st : ModKeepAlive) (now : Nat) :
    Except MError Bool := do
  if !st.enabled || !st.pingOutstanding then
    pure false
  else
    let e ← st.elapsed scal now
    pure (st.keepAlive.le e)

/-- The private `KeepAlive` defined inside src/client.rs (lines 234-288), the one the
`Client` struct actually instantiates: it has no `ping_outstanding` and no `enabled`
field (both are commented out in the source). -/
structure ClientKeepAlive where
  keepAlive : GenericDur
  halfKeepAlive : GenericDur
  lastActivity : Nat
  deriving DecidableEq, Repr

/-- `KeepAlive::try_new` in src/client.rs: the half interval is built by MULTIPLYING the
scaling fraction by 2 (`*keep_alive.scaling_factor() * rate::Fraction::from_integer(2)`),
so it denotes twice the keep-alive interval. -/
def ClientKeepAlive.tryNew (clockNow : Nat) (keepAlive : GenericDur) : ClientKeepAlive :=
  { keepAlive := keepAlive,
    halfKeepAlive := { integer := keepAlive.integer,
                       scaling := ⟨keepAlive.scaling.num * 2, keepAlive.scaling.den⟩ },
    lastActivity := clockNow }

def ClientKeepAlive.elapsed (scal : Fraction) (st : ClientKeepAlive) (now : Nat) :
    Except MError GenericDur :=
  if now < st.lastActivity then throw .timeError
  else pure { integer := now - st.lastActivity, scaling := scal }

/-- `KeepAlive::update` in src/client.rs (clearing ping_outstanding is commented out). -/
def ClientKeepAlive.update (st : ClientKeepAlive) (now : Nat) : ClientKeepAlive :=
  { st with lastActivity := now }

/-- `KeepAlive::should_ping` in src/client.rs: no ping_outstanding gate, no state
change, just `elapsed >= half_keep_alive`. -/
def ClientKeepAlive.shouldPing (scal : Fraction) (st : ClientKeepAlive) (now : Nat) :
    Except MError Bool := do
  let e ← st.elapsed scal now
  pure (st.halfKeepAlive.le e)

/-- `KeepAlive::timed_out` in src/client.rs: the ping_outstanding guard is commented
out, so it is just `elapsed >= keep_alive`. -/
def ClientKeepAlive.timedOut (scal : Fraction) (st : ClientKeepAlive) (now : Nat) :
    Except MError Bool := do
  let e ← st.elapsed scal now
  pure (st.keepAlive.le e)

/-- Overwrite `buf[start .. start + bytes.length)` with `bytes` (the effect of encoding
into `&mut self.buf[start..end]`). -/
def listWrite (buf : List Nat) (start : Nat) (bytes : List Nat) : List Nat :=
  buf.take start ++ bytes ++ buf.drop (start + bytes.length)

/-- `slice::copy_within(src..stop, dst)` on a byte list. -/
def listCopyWithin (buf : List Nat) (src stop dst : Nat) : List Nat :=
  listWrite buf dst ((buf.drop src).take (stop - src))

/-- The `Outbox` of src/client.rs: byte buffer, monotonic write cursor, and a bounded
FIFO of `[start, stop)` ranges (`heapless::Deque` capacity `qcap`). -/
structure Outbox where
  buf : List Nat
  cursor : Nat
  queue : List (Nat × Nat)
  qcap : Nat
  deriving DecidableEq, Repr

def Outbox.new (buf : List Nat) (qcap : Nat) : Outbox :=
  { buf := buf, cursor := 0, queue := [], qcap := qcap }

/-- `Outbox::enqueue` from src/client.rs.  `Packet::required_space` is `todo!()` in
src/packet.rs, and the spec (section 4.7) says it is the exact number of bytes the
packet encodes to; a packet is therefore modelled by its encoded byte list, with
`needed = bytes.length`.  Reset the cursor when the queue is empty, bounds-check,
encode into `buf[cursor..cursor+needed]`, push the range, advance the cursor. -/
def Outbox.enqueue (ob : Outbox) (bytes : List Nat) : (Except MError Unit) × Outbox :=
  let ob := if ob.queue.isEmpty then { ob with cursor := 0 } else ob
  let needed := bytes.length
  if ob.buf.length < ob.cursor + needed then
    (.error .bufferTooSmall, ob)
  else
    let start := ob.cursor
    let stop := start + needed
    let ob := { ob with buf := listWrite ob.buf start bytes }
    if ob.qcap ≤ ob.queue.length then
      (.error .vectorIsFull, ob)
    else
      (.ok (), { ob with queue := ob.queue ++ [(start, stop)], cursor := stop })

/-- The loop of `Outbox::compact` (src/client.rs lines 214-231): walk the queue with a
local compaction cursor, `QueueRangeError` if a range starts before it, slide the bytes
left when there is a gap, and accumulate the lengths.  The queue itself is iterated
immutably and is NOT updated. -/
def compactLoop : List (Nat × Nat) → Nat → List Nat → (Except MError Nat) × List Nat
  | [], cursor, buf => (.ok cursor, buf)
  | (start, stop) :: rest, cursor, buf =>
    if start < cursor then
      (.error .queueRangeError, buf)
    else
      let buf := if 0 < start - cursor then listCopyWithin buf start stop cursor else buf
      compactLoop rest (cursor + (stop - start)) buf

/-- `Outbox::compact`: run the loop over the (unchanged) queue and store the final
compaction cursor as the write cursor. -/
def Outbox.compact (ob : Outbox) : (Except MError Unit) × Outbox :=
  match compactLoop ob.queue 0 ob.buf with
  | (.ok cursor, buf) => (.ok (), { ob with buf := buf, cursor := cursor })
  | (.error e, buf) => (.error e, { ob with buf := buf })

/-- `Outbox::flush_one`: pop the head range, write its bytes to the transport (returned
here as the sent byte list), then compact. -/
def Outbox.flushOne (ob : Outbox) : (Except MError (Option (List Nat))) × Outbox :=
  match ob.queue with
  | [] =>
    match ob.compact with
    | (.ok _, ob2) => (.ok none, ob2)
    | (.error e, ob2) => (.error e, ob2)
  | (start, stop) :: rest =>
    let sent := (ob.buf.drop start).take (stop - start)
    let ob := { ob with queue := rest }
    match ob.compact with
    | (.ok _, ob2) => (.ok (some sent), ob2)
    | (.error e, ob2) => (.error e, ob2)

/-- `Iterator::position`: index of the first element satisfying the predicate. -/
def position (p : α → Bool) : List α → Option Nat
  | [] => none
  | a :: l => if p a then some 0 else (position p l).map (· + 1)

/-- Outgoing QoS 1/2 in-flight state, from src/packet_id_pool.rs. -/
inductive PubInFlightState where
  | awaitPubAck
  | awaitPubRec
  | awaitPubComp
  deriving DecidableEq, Repr

structure PubInFlight where
  id : Nat
  state : PubInFlightState
  deriving DecidableEq, Repr

/-- Purpose selector for the sub/unsub stores (`Kind` in src/packet_id_pool.rs). -/
inductive Kind where
  | sub
  | unsub
  deriving DecidableEq, Repr

/-- `PacketIdPool` from src/packet_id_pool.rs (src/session.rs embeds an identical copy):
the pub store is an array of optional in-flight records, the sub and unsub stores are u16
arrays where 0 marks a free slot, and `next_id` is the wrapping allocation cursor. -/
structure PacketIdPool where
  in_flight_pub : List (Option PubInFlight)
  in_flight_sub : List Nat
  in_flight_unsub : List Nat
  next_id : Nat
  deriving DecidableEq, Repr

/-- `PacketIdPool::new` with capacities `N_PUB_OUT` and `N_SUB`. -/
def PacketIdPool.new (npub nsub : Nat) : PacketIdPool :=
  { in_flight_pub := List.replicate npub none, in_flight_sub := List.replicate nsub 0,
    in_flight_unsub := List.replicate nsub 0, next_id := 1 }

/-- `PacketIdPool::clear`: fill every store with its empty value, reset the cursor to 1. -/
def PacketIdPool.clear (p : PacketIdPool) : PacketIdPool :=
  { in_flight_pub := p.in_flight_pub.map (fun _ => none),
    in_flight_sub := p.in_flight_sub.map (fun _ => 0),
    in_flight_unsub := p.in_flight_unsub.map (fun _ => 0), next_id := 1 }

def PacketIdPool.arrayOf (p : PacketIdPool) : Kind → List Nat
  | .sub => p.in_flight_sub
  | .unsub => p.in_flight_unsub

def PacketIdPool.setArray (p : PacketIdPool) (k : Kind) (l : List Nat) : PacketIdPool :=
  match k with
  | .sub => { p with in_flight_sub := l }
  | .unsub => { p with in_flight_unsub := l }

/-- `PacketIdPool::contains`: the id is present in the pub, sub or unsub store. -/
def PacketIdPool.contains (p : PacketIdPool) (lookingFor : Nat) : Bool :=
  p.in_flight_pub.any (fun o => match o with | some q => q.id == lookingFor | none => false)
    || p.in_flight_sub.any (· == lookingFor)
    || p.in_flight_unsub.any (· == lookingFor)

/-- One `wrapping_add(1)` step of the cursor with the skip-0 fix-up. -/
def nextIdStep (n : Nat) : Nat :=
  let m := (n + 1) % 65536
  if m == 0 then 1 else m

/-- The `for _ in 0..u16::MAX` sweep of `PacketIdPool::next_id` (src/packet_id_pool.rs
lines 89-106), with the iteration count as explicit fuel: take the cursor value, advance
the cursor, skip values already present in any store, and give up with
`NoPacketIdAvailable` after a full sweep. -/
def PacketIdPool.nextIdLoop : Nat → PacketIdPool → (Except MError Nat) × PacketIdPool
  | 0, p => (.error .noPacketIdAvailable, p)
  | fuel + 1, p =>
    let id := p.next_id
    let p := { p with next_id := nextIdStep p.next_id }
    if p.contains id then PacketIdPool.nextIdLoop fuel p
    else (.ok id, p)

/-- `PacketIdPool::next_id`: the sweep with its source iteration count 65535. -/
def PacketIdPool.nextIdAlloc (p : PacketIdPool) : (Except MError Nat) × PacketIdPool :=
  PacketIdPool.nextIdLoop 65535 p

/-- `PacketIdPool::next_pub_id`: find a free pub slot (else `NoPacketIdAvailable`), draw
a fresh id, and record it as `AwaitPubAck` (`just_ack`, QoS 1) or `AwaitPubRec` (QoS 2). -/
def PacketIdPool.nextPubId (p : PacketIdPool) (justAck : Bool) :
    (Except MError Nat) × PacketIdPool :=
  match position (fun o => o.isNone) p.in_flight_pub with
  | none => (.error .noPacketIdAvailable, p)
  | some index =>
    match p.nextIdAlloc with
    | (.error e, p2) => (.error e, p2)
    | (.ok id, p2) =>
      let state := if justAck then PubInFlightState.awaitPubAck else .awaitPubRec
      (.ok id, { p2 with in_flight_pub := p2.in_flight_pub.set index (some ⟨id, state⟩) })

/-- `PacketIdPool::next_for`: find a free (zero) slot in the sub or unsub store (else
`NoPacketIdAvailable`), draw a fresh id, store it. -/
def PacketIdPool.nextFor (p : PacketIdPool) (k : Kind) :
    (Except MError Nat) × PacketIdPool :=
  match position (fun id => id == 0) (p.arrayOf k) with
  | none => (.error .noPacketIdAvailable, p)
  | some index =>
    match p.nextIdAlloc with
    | (.error e, p2) => (.error e, p2)
    | (.ok id, p2) => (.ok id, p2.setArray k ((p2.arrayOf k).set index id))

/-- `PacketIdPool::set_pubrel`: `AwaitPubRec -> AwaitPubComp`, idempotent from
`AwaitPubComp`, protocol violation otherwise or when the id is absent. -/
def PacketIdPool.setPubrel (p : PacketIdPool) (packetId : Nat) :
    (Except MError Unit) × PacketIdPool :=
  match position (fun o => match o with | some q => q.id == packetId | none => false)
      p.in_flight_pub with
  | none => (.error .protocolViolation, p)
  | some index =>
    match p.in_flight_pub.getD index none with
    | none => (.error .protocolViolation, p)
    | some q =>
      match q.state with
      | .awaitPubRec =>
        (.ok (), { p with in_flight_pub :=
          p.in_flight_pub.set index (some ⟨q.id, .awaitPubComp⟩) })
      | .awaitPubComp => (.ok (), p)
      | _ => (.error .protocolViolation, p)

/-- `PacketIdPool::release_pub_id`: requires `AwaitPubAck` when `just_ack`, else
`AwaitPubComp`; clears the slot or fails `ProtocolViolation`. -/
def PacketIdPool.releasePubId (p : PacketIdPool) (packetId : Nat) (justAck : Bool) :
    (Except MError Unit) × PacketIdPool :=
  match position (fun o => match o with | some q => q.id == packetId | none => false)
      p.in_flight_pub with
  | none => (.error .protocolViolation, p)
  | some index =>
    match p.in_flight_pub.getD index none with
    | none => (.error .protocolViolation, p)
    | some entry =>
      if (justAck && entry.state == PubInFlightState.awaitPubAck)
          || (!justAck && entry.state == PubInFlightState.awaitPubComp) then
        (.ok (), { p with in_flight_pub := p.in_flight_pub.set index none })
      else
        (.error .protocolViolation, p)

/-- `PacketIdPool::release_for`: zero the slot holding the id, `ProtocolViolation` when
absent. -/
def PacketIdPool.releaseFor (p : PacketIdPool) (k : Kind) (packetId : Nat) :
    (Except MError Unit) × PacketIdPool :=
  match position (fun id => id == packetId) (p.arrayOf k) with
  | none => (.error .protocolViolation, p)
  | some index => (.ok (), p.setArray k ((p.arrayOf k).set index 0))

/-- One step of an arbitrary allocate/release interleaving on the pool. -/
inductive PoolOp where
  | allocPub (justAck : Bool)
  | allocSub
  | allocUnsub
  | releasePub (id : Nat) (justAck : Bool)
  | releaseSub (id : Nat)
  | releaseUnsub (id : Nat)
  | setPubrel (id : Nat)
  | clear
  deriving DecidableEq, Repr

/-- Apply one operation; as in Rust, the state left behind by a failing call is kept. -/
def PoolOp.apply (p : PacketIdPool) : PoolOp → PacketIdPool
  | .allocPub j => (p.nextPubId j).2
  | .allocSub => (p.nextFor .sub).2
  | .allocUnsub => (p.nextFor .unsub).2
  | .releasePub id j => (p.releasePubId id j).2
  | .releaseSub id => (p.releaseFor .sub id).2
  | .releaseUnsub id => (p.releaseFor .unsub id).2
  | .setPubrel id => (p.setPubrel id).2
  | .clear => p.clear

/-- The pool reached from `new` by a sequence of operations. -/
def runPool (npub nsub : Nat) (ops : List PoolOp) : PacketIdPool :=
  ops.foldl PoolOp.apply (PacketIdPool.new npub nsub)

/-- The ids held by the pub store. -/
def poolPubIds (p : PacketIdPool) : List Nat :=
  p.in_flight_pub.filterMap (fun o => o.map (·.id))

/-- Claim (b) of the packet-id invariants: no non-zero id is present in two of the three
purpose stores at once. -/
def DisjointStores (p : PacketIdPool) : Prop :=
  ∀ id : Nat, id ≠ 0 →
    ¬(id ∈ poolPubIds p ∧ id ∈ p.in_flight_sub) ∧
    ¬(id ∈ poolPubIds p ∧ id ∈ p.in_flight_unsub) ∧
    ¬(id ∈ p.in_flight_sub ∧ id ∈ p.in_flight_unsub)

/-- The inductive invariant carried through every operation. -/
def PoolInv (p : PacketIdPool) : Prop :=
  p.next_id ≠ 0 ∧ DisjointStores p

/-- Subscription lifecycle state, from src/session.rs (`SubState`).  Note the enum has
exactly these four constructors; there is no failed state. -/
inductive SubState where
  | new
  | pending (id : Nat)
  | active
  | unsubPending (id : Nat)
  deriving DecidableEq, Repr

/-- A session-owned subscription record, from src/session.rs. -/
structure Subscription where
  topic : String
  qos : QoS
  state : SubState
  deriving DecidableEq, Repr

/-- The connection phase, from src/session.rs (`State`). -/
inductive SessionState where
  | disconnected
  | connecting
  | connected
  deriving DecidableEq, Repr

/-- Session events surfaced to the caller (src/session.rs `Event`); `Received` carries a
borrowed packet in the source and is not needed by any claim here. -/
inductive Event where
  | connected
  | subscribed
  | subscribeFailed
  | unsubscribed
  | published
  deriving DecidableEq, Repr

/-- The outbound packets the modelled session operations emit. -/
inductive OutPacket where
  | pingReq
  | pingResp
  | pubAck (id : Nat)
  | pubRec (id : Nat)
  deriving DecidableEq, Repr

/-- `session::Action`. -/
inductive Action where
  | send (p : OutPacket)
  | event (e : Event)
  | nothing
  deriving DecidableEq, Repr

/-- SUBACK return codes, from src/packet/subscribe.rs. -/
inductive SubAckReturnCode where
  | successMaxQoS0
  | successMaxQoS1
  | successMaxQoS2
  | failure
  deriving DecidableEq, Repr

/-- A decoded SUBACK, from src/packet/subscribe.rs. -/
structure SubAck where
  packet_id : Nat
  return_codes : List SubAckReturnCode
  deriving DecidableEq, Repr

/-- The session state machine of src/session.rs: connection phase, CONNACK bookkeeping
flags, and the embedded packet-id pool and subscription table. -/
structure Session where
  state : SessionState
  session_present : Bool
  ping_outstanding : Bool
  pool : PacketIdPool
  subscriptions : List Subscription
  deriving DecidableEq, Repr

/-- `Session::ping` from src/session.rs, verbatim: the `if self.ping_outstanding` block
is empty (only a `@todo is it a protocol error?` comment), then `ping_outstanding` is
set and PINGREQ emitted.  The return type is `Action`, not `Result`, so no error can be
reported. -/
def Session.ping (s : Session) : Action × Session :=
  (Action.send .pingReq, { s with ping_outstanding := true })

/-- `Session::on_suback` from src/session.rs lines 236-283: require `Connected`, release
the sub id (mutating the pool even when a later step fails), reject zero return codes as
`ProtocolViolation` and more than one as `UnsupportedIncomingPacket`, find the first
subscription in `Pending(packet_id)` (absent: `ProtocolViolation`; uniqueness is only a
`debug_assert`), then apply the single return code: `SuccessMaxQoSk` sets the negotiated
QoS and `Active` with event `Subscribed`; `Failure` sets the state to `New` with event
`SubscribeFailed`. -/
def Session.onSuback (s : Session) (packet : SubAck) : (Except MError Action) × Session :=
  if s.state != SessionState.connected then
    (.error .protocolViolation, s)
  else
    match s.pool.releaseFor .sub packet.packet_id with
    | (.error e, pool) => (.error e, { s with pool := pool })
    | (.ok _, pool) =>
      let s := { s with pool := pool }
      if packet.return_codes.isEmpty then
        (.error .protocolViolation, s)
      else if 1 < packet.return_codes.length then
        (.error .unsupportedIncomingPacket, s)
      else
        match position (fun sub => sub.state == SubState.pending packet.packet_id)
            s.subscriptions with
        | none => (.error .protocolViolation, s)
        | some i =>
          let sub := s.subscriptions.getD i ⟨"", .atMostOnce, .new⟩
          match packet.return_codes.headD .failure with
          | .successMaxQoS0 =>
            let subs := s.subscriptions.set i { sub with qos := .atMostOnce, state := .active }
            (.ok (.event .subscribed), { s with subscriptions := subs })
          | .successMaxQoS1 =>
            let subs := s.subscriptions.set i { sub with qos := .atLeastOnce, state := .active }
            (.ok (.event .subscribed), { s with subscriptions := subs })
          | .successMaxQoS2 =>
            let subs := s.subscriptions.set i { sub with qos := .exactlyOnce, state := .active }
            (.ok (.event .subscribed), { s with subscriptions := subs })
          | .failure =>
            let subs := s.subscriptions.set i { sub with state := .new }
            (.ok (.event .subscribeFailed), { s with subscriptions := subs })

/-- The subscription state space of the SPEC (section 3 data model), which includes a
`Failed` state; used to compare the code's `SubState` with the spec's words. -/
inductive SpecSubState where
  | new
  | pending (id : Nat)
  | active
  | unsubPending (id : Nat)
  | failed
  deriving DecidableEq, Repr

/-- Abstraction of the code's `SubState` into the spec's state space.  The code enum has
no failed constructor, so no code state maps to `SpecSubState.failed`. -/
def SubState.toSpec : SubState → SpecSubState
  | .new => .new
  | .pending i => .pending i
  | .active => .active
  | .unsubPending i => .unsubPending i

/-- QoS 2 receive-side slot state, from src/incoming.rs. -/
inductive PubInState where
  | awaitPubRel
  | done
  deriving DecidableEq, Repr

structure PubInFlightIn where
  id : Nat
  state : PubInState
  deriving DecidableEq, Repr

/-- The incoming-publish tracker `Publish` of src/incoming.rs: a rotation cursor and a
bounded vector of slots; `cap` is the `N_PUB_IN` const generic. -/
structure InTracker where
  cap : Nat
  cursor : Nat
  pubs : List PubInFlightIn
  deriving DecidableEq, Repr

/-- `Publish::shift_cursor`: advance and wrap at the capacity. -/
def shiftCursor (cap cursor : Nat) : Nat :=
  if cap ≤ cursor + 1 then 0 else cursor + 1

/-- The eviction loop of `Publish::track` (src/incoming.rs lines 46-56): rotate at most
`pubs.len()` steps (the fuel) looking for a `Done` slot to overwrite; when none is found
fail `VectorIsFull`. -/
def trackLoop (cap : Nat) (entry : PubInFlightIn) :
    Nat → Nat → List PubInFlightIn → (Except MError Unit) × Nat × List PubInFlightIn
  | 0, cursor, pubs => (.error .vectorIsFull, cursor, pubs)
  | steps + 1, cursor, pubs =>
    if (pubs.getD cursor ⟨0, .done⟩).state == PubInState.done then
      (.ok (), shiftCursor cap cursor, pubs.set cursor entry)
    else
      trackLoop cap entry steps (shiftCursor cap cursor) pubs

/-- `Publish::track` from src/incoming.rs: an id already present is an idempotent
success; a free slot admits `(id, AwaitPubRel)`; a full ring rotates looking for a
`Done` slot to evict, else `VectorIsFull`. -/
def InTracker.track (t : InTracker) (packetId : Nat) : (Except MError Unit) × InTracker :=
  if t.pubs.any (fun p => p.id == packetId) then
    (.ok (), t)
  else
    let entry : PubInFlightIn := ⟨packetId, .awaitPubRel⟩
    if t.pubs.length < t.cap then
      (.ok (), { t with pubs := t.pubs ++ [entry] })
    else
      match trackLoop t.cap entry t.pubs.length t.cursor t.pubs with
      | (r, cursor, pubs) => (r, { t with cursor := cursor, pubs := pubs })

/-- `Publish::mark_complete` from src/incoming.rs: find the slot holding the id
(`ProtocolViolation` when absent); `AwaitPubRel` becomes `Done`, any other state is left
unchanged, and both cases succeed. -/
def InTracker.markComplete (t : InTracker) (packetId : Nat) :
    (Except MError Unit) × InTracker :=
  match position (fun p => p.id == packetId) t.pubs with
  | none => (.error .protocolViolation, t)
  | some i =>
    let e := t.pubs.getD i ⟨0, .done⟩
    if e.state == PubInState.awaitPubRel then
      (.ok (), { t with pubs := t.pubs.set i ⟨e.id, .done⟩ })
    else
      (.ok (), t)

/-- `EncodePacket::flags for &Subscribe` in src/packet/subscribe.rs: the literal 0b0010. -/
def subscribeEncodedFlags : Nat := 0b0010

/-- `EncodePacket::flags for &Unsubscribe` in src/packet/unsubscribe.rs: the literal 0b0010. -/
def unsubscribeEncodedFlags : Nat := 0b0010

/-- The outbox invariant of the spec (section 8): queued ranges non-overlapping and in
insertion order, `stop[i] <= start[i+1]`. -/
def rangesOrderedB : List (Nat × Nat) → Bool
  | [] => true
  | [_] => true
  | a :: b :: rest => (decide (a.2 ≤ b.1)) && rangesOrderedB (b :: rest)

/-- Outbox state after: enqueue a 2-byte packet, enqueue a second one, flush one. -/
def c5mid : Outbox :=
  (((((Outbox.new (List.replicate 6 0) 4).enqueue [1, 2]).2.enqueue [3, 4]).2).flushOne).2

/-- ... and then enqueue a third 2-byte packet. -/
def c5final : Outbox := (c5mid.enqueue [5, 6]).2

/-- A connected session holding one subscription pending under packet id 7, with id 7
reserved in the subscribe store. -/
def c6session : Session :=
  { state := .connected, session_present := false, ping_outstanding := false,
    pool := { in_flight_pub := [none, none], in_flight_sub := [7, 0],
              in_flight_unsub := [0, 0], next_id := 2 },
    subscriptions := [⟨"a/b", .atLeastOnce, .pending 7⟩] }

/-- A connected session with a PINGREQ already outstanding. -/
def c7session : Session :=
  { state := .connected, session_present := false, ping_outstanding := true,
    pool := PacketIdPool.new 2 2, subscriptions := [] }

/-- The QoS granted by a SUBACK return code (Failure keeps the previous value). -/
def negotiatedQoS : SubAckReturnCode → QoS → QoS
  | .successMaxQoS0, _ => .atMostOnce
  | .successMaxQoS1, _ => .atLeastOnce
  | .successMaxQoS2, _ => .exactlyOnce
  | .failure, q => q

/-- C1: the claim says encode and decode round-trip and that the encoded PUBLISH body is
topic, optional packet-id, then the payload as the remaining bytes with no length
prefix.  On the code, `encode_body` emits the payload through `Slice::encode` =
`write_binary_chunk`, which adds a 2-byte length prefix, while `Publish::decode` reads
the payload as all remaining bytes; at topic "t" (0x74), QoS 0, payload [0x70] the full
encoding is `30 06 00 01 74 00 01 70` (which is fixed-header + required_space bytes),
and decoding that body returns payload `00 01 70`, not `70`: the round trip fails. -/
theorem publish_payload_length_prefix_breaks_roundtrip :
    Publish.encodePacket ⟨⟨false, .atMostOnce, false⟩, [0x74], none, [0x70]⟩ ⟨64, []⟩
      = Except.ok ⟨64, [0x30, 6, 0, 1, 0x74, 0, 1, 0x70]⟩
    ∧ Publish.requiredSpace ⟨⟨false, .atMostOnce, false⟩, [0x74], none, [0x70]⟩ = 6
    ∧ Publish.decode (PubFlags.toByte ⟨false, .atMostOnce, false⟩) [0, 1, 0x74, 0, 1, 0x70]
      = Except.ok ⟨⟨false, .atMostOnce, false⟩, [0x74], none, [0, 1, 0x70]⟩
    ∧ ([0, 1, 0x70] : List Nat) ≠ [0x70] := by
  refine ⟨rfl, rfl, rfl, by decide⟩

/-- C2: the claim says PINGREQ encodes to exactly `C0 00` (flag nibble zero, zero body).
The code's `empty_body` builds the header byte as `(type << 4) | 0b0010`, so PINGREQ
encodes to `C2 00`: the body length is indeed zero but the flag nibble is 0b0010, which
the crate's own `validate_flags` rejects for PINGREQ. -/
theorem pingreq_encodes_with_nonzero_flag_nibble :
    emptyBody ⟨8, []⟩ .pingReq = Except.ok ⟨8, [0xC2, 0x00]⟩
    ∧ ([0xC2, 0x00] : List Nat) ≠ [0xC0, 0x00]
    ∧ (0xC2 : Nat) &&& 0x0F = 0b0010
    ∧ PacketType.validateFlags .pingReq ((0xC2 : Nat) &&& 0x0F) = false := by
  refine ⟨rfl, by decide, by decide, rfl⟩

/-- C3: the claim says parsing the first fixed-header byte succeeds exactly when the
flag nibble is 0b0010 for PUBREL/SUBSCRIBE/UNSUBSCRIBE, 0 for the other non-PUBLISH
types, anything for PUBLISH.  The code's `validate_flags` instead demands the literal
`0b0100` for those three types: it rejects the MQTT-mandated 0b0010 (so `62 --` fails
with InvalidFlags), accepts 0b0100, and in particular rejects the flag nibble the
crate's own SUBSCRIBE/UNSUBSCRIBE encoders emit (0b0010). -/
theorem validate_flags_demands_0100_not_0010 :
    PacketType.validateFlags .pubRel 0b0010 = false
    ∧ PacketType.validateFlags .subscribe 0b0010 = false
    ∧ PacketType.validateFlags .unsubscribe 0b0010 = false
    ∧ PacketType.validateFlags .pubRel 0b0100 = true
    ∧ PacketType.validateFlags .subscribe subscribeEncodedFlags = false
    ∧ PacketType.validateFlags .unsubscribe unsubscribeEncodedFlags = false
    ∧ parseFirstByte 0x62 = Except.error MError.invalidFlags
    ∧ parseFirstByte 0x64 = Except.ok (PacketType.pubRel, 0b0100) := by
  refine ⟨rfl, rfl, rfl, rfl, rfl, rfl, rfl, rfl⟩

/-- C7: the claim says calling `ping()` with a ping already outstanding returns the
`PingOutstanding` error.  `Session::ping` returns `Action` (not `Result`), its
`if self.ping_outstanding` block is empty, and it unconditionally emits PINGREQ: on a
session with `ping_outstanding = true` the call still yields `Action::Send(PingReq)`
and leaves the flag set — no error is possible. -/
theorem ping_while_outstanding_still_sends_pingreq :
    (∀ s : Session, (Session.ping s).1 = Action.send OutPacket.pingReq)
    ∧ Session.ping c7session = (Action.send OutPacket.pingReq, c7session) := by
  exact ⟨fun s => rfl, rfl⟩

/-- C4: the claim describes the keep-alive used by the client with D = 10 s: no
activity for 5 s must make `should_ping` true, and `timed_out` must require an
outstanding ping.  `Client` instantiates the private `KeepAlive` of src/client.rs, whose
`try_new` MULTIPLIES the scaling fraction by 2 (half interval becomes 2·D = 20 s) and
whose `ping_outstanding` handling is commented out.  With the microsecond clock of
src/time.rs (scaling 1/1000000) and D = 10 s: after 5 s `should_ping` is false (claim
says true), and after 10 s `timed_out` is true although no ping is outstanding (claim
says false).  The separate module src/keep_alive.rs — which the client does not use —
behaves exactly as claimed at the same inputs. -/
theorem client_keepalive_diverges_from_claim :
    ClientKeepAlive.shouldPing ⟨1, 1000000⟩
      (ClientKeepAlive.tryNew 0 ⟨10000000, ⟨1, 1000000⟩⟩) 5000000 = Except.ok false
    ∧ ClientKeepAlive.timedOut ⟨1, 1000000⟩
      (ClientKeepAlive.tryNew 0 ⟨10000000, ⟨1, 1000000⟩⟩) 10000000 = Except.ok true
    ∧ ModKeepAlive.shouldPing ⟨1, 1000000⟩
      (ModKeepAlive.tryNew 0 ⟨10000000, ⟨1, 1000000⟩⟩) 5000000
      = Except.ok (true, { ModKeepAlive.tryNew 0 ⟨10000000, ⟨1, 1000000⟩⟩ with
          pingOutstanding := true })
    ∧ ModKeepAlive.timedOut ⟨1, 1000000⟩
      ({ ModKeepAlive.tryNew 0 ⟨10000000, ⟨1, 1000000⟩⟩ with pingOutstanding := true })
      10000000 = Except.ok true := by
  refine ⟨rfl, rfl, rfl, rfl⟩

/-- C5: the claim says compaction re-indexes the queued ranges so they stay contiguous
from offset 0 and keep addressing their packets' bytes, and that ranges remain
non-overlapping after any enqueue/flush interleaving.  `Outbox::compact` iterates the
queue immutably: it slides the bytes left but never updates the stored ranges.  After
enqueue [1,2]; enqueue [3,4]; flush_one, the remaining range is still (2,4) (not
re-indexed to (0,2)) with the write cursor at 2; a further enqueue [5,6] then encodes
over that stale region, leaving the overlapping queue [(2,4),(2,4)] — and flushing the
second packet's range would now send [5,6] instead of [3,4]. -/
theorem outbox_compact_never_reindexes :
    c5mid.queue = [(2, 4)]
    ∧ c5mid.cursor = 2
    ∧ c5mid.buf = [3, 4, 3, 4, 0, 0]
    ∧ c5final.queue = [(2, 4), (2, 4)]
    ∧ rangesOrderedB c5final.queue = false
    ∧ (c5final.buf.drop 2).take 2 = [5, 6]
    ∧ ([5, 6] : List Nat) ≠ [3, 4] := by
  refine ⟨rfl, rfl, rfl, rfl, rfl, rfl, by decide⟩

/-- C6 counterexample: the claim says the SUBACK `Failure` return code sets the
subscription state to `Failed`.  The code's `SubState` has no failed constructor, and
the `Failure` arm of `on_suback` sets the state to `New`: on a connected session whose
only subscription is `Pending(7)`, a SUBACK (id 7, codes [Failure]) yields the event
`SubscribeFailed` but leaves the subscription in the spec state `New`, not `Failed`. -/
theorem suback_failure_sets_new_not_failed :
    (Session.onSuback c6session ⟨7, [.failure]⟩).1 = Except.ok (Action.event .subscribeFailed)
    ∧ ((Session.onSuback c6session ⟨7, [.failure]⟩).2.subscriptions.map
        (fun sub => sub.state.toSpec)) = [SpecSubState.new]
    ∧ SpecSubState.new ≠ SpecSubState.failed := by
  refine ⟨rfl, rfl, by decide⟩

/-- C6 (amended): in state Connected, `on_suback` releases the sub id, requires exactly
one return code (zero codes are a protocol violation, more than one is rejected as
unsupported) and a subscription in state `Pending(id)`; a success code `SuccessMaxQoSk`
sets that subscription to `Active` with negotiated QoS k and yields `Subscribed`, and
the `Failure` code sets the subscription state back to `New` (the code's `SubState` has
no Failed constructor) and yields `SubscribeFailed`. -/
theorem onSuback_single_code_behaviour (s : Session) (id : Nat) (c : SubAckReturnCode)
    (i : Nat)
    (hconn : s.state = SessionState.connected)
    (hrel : (s.pool.releaseFor Kind.sub id).1 = Except.ok ())
    (hfind : position (fun sub => sub.state == SubState.pending id) s.subscriptions
      = some i) :
    (Session.onSuback s ⟨id, []⟩).1 = Except.error MError.protocolViolation
    ∧ (∀ c2 : SubAckReturnCode,
        (Session.onSuback s ⟨id, [c, c2]⟩).1 = Except.error MError.unsupportedIncomingPacket)
    ∧ Session.onSuback s ⟨id, [c]⟩ =
        (Except.ok (Action.event
            (if c == SubAckReturnCode.failure then Event.subscribeFailed
             else Event.subscribed)),
          { s with pool := (s.pool.releaseFor Kind.sub id).2,
                   subscriptions := s.subscriptions.set i
                     { s.subscriptions.getD i ⟨"", QoS.atMostOnce, SubState.new⟩ with
                       qos := negotiatedQoS c
                         (s.subscriptions.getD i ⟨"", QoS.atMostOnce, SubState.new⟩).qos,
                       state := if c == SubAckReturnCode.failure then SubState.new
                         else SubState.active } }) := by
  have hb : (s.state != SessionState.connected) = false := by
    rw [hconn]; rfl
  rcases hp : s.pool.releaseFor Kind.sub id with ⟨r, pool⟩
  rw [hp] at hrel
  simp only at hrel
  subst hrel
  refine ⟨?_, fun c2 => ?_, ?_⟩
  · simp [Session.onSuback, hb, hp]
  · simp [Session.onSuback, hb, hp]
  · cases c <;> simp [Session.onSuback, hb, hp, hfind, negotiatedQoS]

/-- Witness for the amended C6 theorem at the concrete session `c6session`. -/
theorem onSuback_single_code_behaviour_witness :
    (Session.onSuback c6session ⟨7, []⟩).1 = Except.error MError.protocolViolation :=
  (onSuback_single_code_behaviour c6session 7 SubAckReturnCode.successMaxQoS1 0
    rfl rfl rfl).1

theorem position_some_spec {α} (p : α → Bool) (d : α) :
    ∀ (l : List α) (i : Nat), position p l = some i →
      i < l.length ∧ p (l.getD i d) = true := by
  intro l
  induction l with
  | nil => intro i h; simp [position] at h
  | cons a t ih =>
    intro i h
    by_cases hpa : p a
    · simp [position, hpa] at h
      subst h
      simpa using hpa
    · simp [position, hpa] at h
      obtain ⟨j, hj, rfl⟩ := h
      have := ih j hj
      constructor
      · simpa using this.1
      · simpa using this.2

theorem any_eq_position_isSome {α} (p : α → Bool) :
    ∀ l : List α, l.any p = (position p l).isSome := by
  intro l
  induction l with
  | nil => rfl
  | cons a t ih =>
    by_cases hpa : p a <;> simp [position, hpa, ih]

theorem position_set_same {α} (p : α → Bool) (b : α) (hb : p b = true) :
    ∀ (l : List α) (i : Nat), position p l = some i → position p (l.set i b) = some i := by
  intro l
  induction l with
  | nil => intro i h; simp [position] at h
  | cons a t ih =>
    intro i h
    by_cases hpa : p a
    · simp [position, hpa] at h
      subst h
      simp [List.set, position, hb]
    · simp [position, hpa] at h
      obtain ⟨j, hj, rfl⟩ := h
      simp [List.set, position, hpa, ih j hj]

theorem getD_set_same {α} (b d : α) :
    ∀ (l : List α) (i : Nat), i < l.length → (l.set i b).getD i d = b := by
  intro l
  induction l with
  | nil => intro i h; simp at h
  | cons a t ih =>
    intro i h
    cases i with
    | zero => simp
    | succ j => simpa using ih j (by simpa using h)

theorem getD_mem {α} (d : α) :
    ∀ (l : List α) (i : Nat), i < l.length → l.getD i d ∈ l := by
  intro l
  induction l with
  | nil => intro i h; simp at h
  | cons a t ih =>
    intro i h
    cases i with
    | zero => simp
    | succ j =>
      have := ih j (by simpa using h)
      simpa using Or.inr this

theorem shiftCursor_lt (cap cursor : Nat) (h : cursor < cap) : shiftCursor cap cursor < cap := by
  unfold shiftCursor
  split <;> omega

theorem trackLoop_no_done (cap : Nat) (entry : PubInFlightIn) (pubs : List PubInFlightIn)
    (hall : ∀ e ∈ pubs, e.state = PubInState.awaitPubRel) (hlen : pubs.length = cap) :
    ∀ (steps cursor : Nat), cursor < cap →
      (trackLoop cap entry steps cursor pubs).1 = Except.error MError.vectorIsFull := by
  intro steps
  induction steps with
  | zero => intro cursor _; rfl
  | succ n ih =>
    intro cursor hc
    have hmem : pubs.getD cursor ⟨0, .done⟩ ∈ pubs := getD_mem _ pubs cursor (by omega)
    have hst : (pubs.getD cursor ⟨0, .done⟩).state = PubInState.awaitPubRel := hall _ hmem
    have hbeq : ((pubs.getD cursor ⟨0, .done⟩).state == PubInState.done) = false := by
      rw [hst]; rfl
    simp only [trackLoop, hbeq, Bool.false_eq_true, if_false]
    exact ih (shiftCursor cap cursor) (shiftCursor_lt cap cursor hc)

theorem trackLoop_ok_evicts (cap : Nat) (entry : PubInFlightIn) :
    ∀ (steps : Nat) (cursor : Nat) (pubs : List PubInFlightIn), cursor < pubs.length →
      pubs.length = cap →
      ∀ c2 pubs2, trackLoop cap entry steps cursor pubs = (Except.ok (), c2, pubs2) →
      ∃ j, j < pubs.length ∧ (pubs.getD j ⟨0, .done⟩).state = PubInState.done
        ∧ pubs2 = pubs.set j entry := by
  intro steps
  induction steps with
  | zero =>
    intro cursor pubs _ _ c2 pubs2 h
    simp [trackLoop] at h
  | succ n ih =>
    intro cursor pubs hc hlen c2 pubs2 h
    by_cases hst : ((pubs.getD cursor ⟨0, .done⟩).state == PubInState.done) = true
    · simp only [trackLoop, hst, if_true, Prod.mk.injEq] at h
      refine ⟨cursor, hc, by simpa using hst, ?_⟩
      exact h.2.2.symm
    · simp only [trackLoop, hst, Bool.false_eq_true, if_false] at h
      exact ih (shiftCursor cap cursor) pubs
        (by simpa [hlen] using shiftCursor_lt cap cursor (hlen ▸ hc)) hlen c2 pubs2 h

/-- C9: on the incoming-publish tracker, `track(id)` with the id already present
returns success without modifying the ring; with the ring full and the id absent it
fails `VectorIsFull` exactly when no slot is in state `Done`, and a successful insertion
evicts precisely one `Done` slot (found within at most `pubs.len()` rotation steps, the
loop's bound), replacing it with `(id, AwaitPubRel)` and leaving every other slot
untouched; and `mark_complete(id)` for an id absent from the ring fails
`ProtocolViolation`. -/
theorem incoming_track_and_mark_complete_spec (t : InTracker) (id : Nat) :
    (t.pubs.any (fun e => e.id == id) = true → InTracker.track t id = (Except.ok (), t))
    ∧ (t.pubs.any (fun e => e.id == id) = false → t.pubs.length = t.cap →
        t.cursor < t.cap →
        ((∀ e ∈ t.pubs, e.state = PubInState.awaitPubRel) →
          (InTracker.track t id).1 = Except.error MError.vectorIsFull)
        ∧ ((InTracker.track t id).1 = Except.ok () →
          ∃ j, j < t.pubs.length
            ∧ (t.pubs.getD j ⟨0, PubInState.done⟩).state = PubInState.done
            ∧ (InTracker.track t id).2.pubs = t.pubs.set j ⟨id, PubInState.awaitPubRel⟩))
    ∧ (t.pubs.any (fun e => e.id == id) = false →
        InTracker.markComplete t id = (Except.error MError.protocolViolation, t)) := by
  refine ⟨?_, ?_, ?_⟩
  · intro hmem
    simp [InTracker.track, hmem]
  · intro hmem hlen hcur
    have hnotfull : ¬ t.pubs.length < t.cap := by omega
    constructor
    · intro hall
      have hloop := trackLoop_no_done t.cap ⟨id, .awaitPubRel⟩ t.pubs hall hlen
        t.pubs.length t.cursor hcur
      simp only [InTracker.track, hmem, Bool.false_eq_true, if_false, hnotfull]
      rcases htl : trackLoop t.cap ⟨id, .awaitPubRel⟩ t.pubs.length t.cursor t.pubs
        with ⟨r, c2, pubs2⟩
      rw [htl] at hloop
      simpa using hloop
    · intro hok
      simp only [InTracker.track, hmem, Bool.false_eq_true, if_false, hnotfull] at hok ⊢
      rcases htl : trackLoop t.cap ⟨id, .awaitPubRel⟩ t.pubs.length t.cursor t.pubs
        with ⟨r, c2, pubs2⟩
      rw [htl] at hok
      simp only at hok
      subst hok
      have := trackLoop_ok_evicts t.cap ⟨id, .awaitPubRel⟩ t.pubs.length t.cursor t.pubs
        (by omega) hlen c2 pubs2 htl
      simpa using this
  · intro hmem
    have hpos : position (fun e => e.id == id) t.pubs = none := by
      have := any_eq_position_isSome (fun e => e.id == id) t.pubs
      rw [hmem] at this
      exact Option.not_isSome_iff_eq_none.mp (by simp [← this])
    simp [InTracker.markComplete, hpos]

/-- Witness for C9: an already-tracked id is an idempotent success, and a full ring of
`AwaitPubRel` slots rejects a new id with `VectorIsFull`. -/
theorem incoming_track_and_mark_complete_spec_witness :
    InTracker.track ⟨2, 0, [⟨5, PubInState.awaitPubRel⟩]⟩ 5
      = (Except.ok (), ⟨2, 0, [⟨5, PubInState.awaitPubRel⟩]⟩)
    ∧ (InTracker.track ⟨2, 0, [⟨5, .awaitPubRel⟩, ⟨6, .awaitPubRel⟩]⟩ 7).1
      = Except.error MError.vectorIsFull
    ∧ InTracker.markComplete ⟨2, 0, [⟨5, PubInState.awaitPubRel⟩]⟩ 9
      = (Except.error MError.protocolViolation, ⟨2, 0, [⟨5, PubInState.awaitPubRel⟩]⟩) := by
  refine ⟨?_, ?_, ?_⟩
  · exact (incoming_track_and_mark_complete_spec ⟨2, 0, [⟨5, .awaitPubRel⟩]⟩ 5).1 (by decide)
  · exact ((incoming_track_and_mark_complete_spec ⟨2, 0, [⟨5, .awaitPubRel⟩, ⟨6, .awaitPubRel⟩]⟩
      7).2.1 (by decide) (by decide) (by decide)).1 (by decide)
  · exact (incoming_track_and_mark_complete_spec ⟨2, 0, [⟨5, .awaitPubRel⟩]⟩ 9).2.2 (by decide)

/-- C10: `mark_complete` is idempotent.  For any id present in the ring the first call
succeeds and leaves the slot holding the id in state `Done`, and a second call (the slot
now `Done`) succeeds without changing the tracker, so a duplicate PUBREL neither fails
nor re-arms the slot. -/
theorem mark_complete_idempotent (t : InTracker) (id : Nat)
    (hmem : t.pubs.any (fun e => e.id == id) = true) :
    (InTracker.markComplete t id).1 = Except.ok ()
    ∧ InTracker.markComplete (InTracker.markComplete t id).2 id
      = (Except.ok (), (InTracker.markComplete t id).2)
    ∧ ∃ i, position (fun e => e.id == id) (InTracker.markComplete t id).2.pubs = some i
        ∧ ((InTracker.markComplete t id).2.pubs.getD i ⟨0, PubInState.done⟩).state
          = PubInState.done := by
  have hsome : (position (fun e => e.id == id) t.pubs).isSome = true := by
    rw [← any_eq_position_isSome]; exact hmem
  obtain ⟨i, hi⟩ := Option.isSome_iff_exists.mp hsome
  obtain ⟨hilt, hip⟩ := position_some_spec (fun e => e.id == id) ⟨0, PubInState.done⟩
    t.pubs i hi
  rcases hcase : (t.pubs.getD i ⟨0, PubInState.done⟩).state with _ | _
  · have hres : InTracker.markComplete t id
        = (Except.ok (), { t with
              pubs := t.pubs.set i ⟨(t.pubs.getD i ⟨0, PubInState.done⟩).id, PubInState.done⟩ }) := by
      simp only [InTracker.markComplete, hi, hcase]
      rfl
    have hposX : position (fun e => e.id == id)
        (t.pubs.set i ⟨(t.pubs.getD i ⟨0, PubInState.done⟩).id, PubInState.done⟩) = some i :=
      position_set_same (fun e => e.id == id)
        ⟨(t.pubs.getD i ⟨0, PubInState.done⟩).id, PubInState.done⟩ hip t.pubs i hi
    have hgetX : (t.pubs.set i ⟨(t.pubs.getD i ⟨0, PubInState.done⟩).id,
          PubInState.done⟩).getD i ⟨0, PubInState.done⟩
        = ⟨(t.pubs.getD i ⟨0, PubInState.done⟩).id, PubInState.done⟩ :=
      getD_set_same _ _ t.pubs i hilt
    refine ⟨by rw [hres], ?_, ⟨i, ?_, ?_⟩⟩
    · rw [hres]
      simp only [InTracker.markComplete, hposX, hgetX]
      rfl
    · rw [hres]
      exact hposX
    · rw [hres]
      rw [hgetX]
  · have hres : InTracker.markComplete t id = (Except.ok (), t) := by
      simp only [InTracker.markComplete, hi, hcase]
      rfl
    refine ⟨by rw [hres], ?_, ⟨i, by rw [hres]; exact hi, by rw [hres]; exact hcase⟩⟩
    rw [hres]
    simp only [InTracker.markComplete, hi, hcase]
    rfl

/-- Witness for C10 at a one-slot ring holding id 5 in `AwaitPubRel`. -/
theorem mark_complete_idempotent_witness :
    InTracker.markComplete
        (InTracker.markComplete ⟨2, 0, [⟨5, PubInState.awaitPubRel⟩]⟩ 5).2 5
      = (Except.ok (), (InTracker.markComplete ⟨2, 0, [⟨5, PubInState.awaitPubRel⟩]⟩ 5).2) :=
  (mark_complete_idempotent ⟨2, 0, [⟨5, PubInState.awaitPubRel⟩]⟩ 5 (by decide)).2.1

theorem nextIdStep_ne_zero (n : Nat) : nextIdStep n ≠ 0 := by
  unfold nextIdStep
  by_cases h : ((n + 1) % 65536 == 0) = true
  · simp only [h, if_true]
    omega
  · simp only [h, Bool.false_eq_true, if_false]
    simpa using h

theorem mem_poolPubIds_iff (l : List (Option PubInFlight)) (x : Nat) :
    x ∈ l.filterMap (fun o => o.map (·.id)) ↔ ∃ q : PubInFlight, some q ∈ l ∧ q.id = x := by
  simp only [List.mem_filterMap, Option.map_eq_some']
  constructor
  · rintro ⟨a, ha, q, rfl, rfl⟩
    exact ⟨q, ha, rfl⟩
  · rintro ⟨q, hq, rfl⟩
    exact ⟨some q, hq, q, rfl, rfl⟩

theorem anyPub_iff (l : List (Option PubInFlight)) (x : Nat) :
    (l.any (fun o => match o with | some q => q.id == x | none => false) = true)
      ↔ ∃ q : PubInFlight, some q ∈ l ∧ q.id = x := by
  simp only [List.any_eq_true]
  constructor
  · rintro ⟨o, ho, hf⟩
    cases o with
    | none => simp at hf
    | some q => exact ⟨q, ho, by simpa using hf⟩
  · rintro ⟨q, hq, rfl⟩
    exact ⟨some q, hq, by simp⟩

theorem anyNat_iff (l : List Nat) (x : Nat) : (l.any (· == x) = true) ↔ x ∈ l := by
  simp only [List.any_eq_true, beq_iff_eq]
  exact ⟨fun ⟨a, ha, h⟩ => h ▸ ha, fun h => ⟨x, h, rfl⟩⟩

theorem contains_iff (p : PacketIdPool) (x : Nat) :
    p.contains x = true
      ↔ x ∈ poolPubIds p ∨ x ∈ p.in_flight_sub ∨ x ∈ p.in_flight_unsub := by
  simp only [PacketIdPool.contains, Bool.or_eq_true, anyPub_iff, anyNat_iff, poolPubIds,
    mem_poolPubIds_iff]
  exact or_assoc

theorem contains_false_spec (p : PacketIdPool) (x : Nat) (h : p.contains x = false) :
    x ∉ poolPubIds p ∧ x ∉ p.in_flight_sub ∧ x ∉ p.in_flight_unsub := by
  refine ⟨fun hx => ?_, fun hx => ?_, fun hx => ?_⟩
  · rw [(contains_iff p x).mpr (Or.inl hx)] at h; exact Bool.true_eq_false.mp h
  · rw [(contains_iff p x).mpr (Or.inr (Or.inl hx))] at h; exact Bool.true_eq_false.mp h
  · rw [(contains_iff p x).mpr (Or.inr (Or.inr hx))] at h; exact Bool.true_eq_false.mp h

theorem position_none_of_all {α} (p : α → Bool) :
    ∀ l : List α, (∀ a ∈ l, p a = false) → position p l = none := by
  intro l
  induction l with
  | nil => intro _; rfl
  | cons a t ih =>
    intro h
    have ha : p a = false := h a (by simp)
    simp only [position, ha, Bool.false_eq_true, if_false]
    rw [ih (fun b hb => h b (by simp [hb]))]
    rfl

theorem nextIdLoop_stores : ∀ (fuel : Nat) (p : PacketIdPool),
    (PacketIdPool.nextIdLoop fuel p).2.in_flight_pub = p.in_flight_pub
    ∧ (PacketIdPool.nextIdLoop fuel p).2.in_flight_sub = p.in_flight_sub
    ∧ (PacketIdPool.nextIdLoop fuel p).2.in_flight_unsub = p.in_flight_unsub := by
  intro fuel
  induction fuel with
  | zero => intro p; exact ⟨rfl, rfl, rfl⟩
  | succ n ih =>
    intro p
    simp only [PacketIdPool.nextIdLoop]
    split
    · exact ih _
    · exact ⟨rfl, rfl, rfl⟩

theorem nextIdLoop_next_id_ne : ∀ (fuel : Nat) (p : PacketIdPool), p.next_id ≠ 0 →
    (PacketIdPool.nextIdLoop fuel p).2.next_id ≠ 0 := by
  intro fuel
  induction fuel with
  | zero => intro p h; exact h
  | succ n ih =>
    intro p _
    simp only [PacketIdPool.nextIdLoop]
    split
    · exact ih _ (nextIdStep_ne_zero _)
    · exact nextIdStep_ne_zero _

theorem nextIdLoop_error : ∀ (fuel : Nat) (p : PacketIdPool) (e : MError),
    (PacketIdPool.nextIdLoop fuel p).1 = Except.error e → e = MError.noPacketIdAvailable := by
  intro fuel
  induction fuel with
  | zero =>
    intro p e h
    simp only [PacketIdPool.nextIdLoop] at h
    exact (Except.error.injEq .. ▸ h).symm
  | succ n ih =>
    intro p e h
    simp only [PacketIdPool.nextIdLoop] at h
    split at h
    · exact ih _ e h
    · simp at h

theorem nextIdLoop_ok : ∀ (fuel : Nat) (p : PacketIdPool) (id : Nat),
    (PacketIdPool.nextIdLoop fuel p).1 = Except.ok id →
    (p.next_id ≠ 0 → id ≠ 0) ∧ p.contains id = false := by
  intro fuel
  induction fuel with
  | zero =>
    intro p id h
    simp [PacketIdPool.nextIdLoop] at h
  | succ n ih =>
    intro p id h
    simp only [PacketIdPool.nextIdLoop] at h
    split at h
    · have := ih _ id h
      exact ⟨fun _ => this.1 (nextIdStep_ne_zero _), this.2⟩
    · rename_i hc
      simp only at h
      have hid : p.next_id = id := Except.ok.injEq .. ▸ h
      subst hid
      refine ⟨fun hz => hz, ?_⟩
      have : PacketIdPool.contains { p with next_id := nextIdStep p.next_id } p.next_id
          = false := by
        rwa [Bool.not_eq_true] at hc
      exact this

theorem mem_poolPubIds_set (l : List (Option PubInFlight)) (i : Nat)
    (v : Option PubInFlight) (x : Nat)
    (h : x ∈ (l.set i v).filterMap (fun o => o.map (·.id))) :
    x ∈ l.filterMap (fun o => o.map (·.id)) ∨ (∃ q, v = some q ∧ q.id = x) := by
  obtain ⟨q, hq, rfl⟩ := (mem_poolPubIds_iff _ _).mp h
  rcases List.mem_or_eq_of_mem_set hq with hmem | heq
  · exact Or.inl ((mem_poolPubIds_iff _ _).mpr ⟨q, hmem, rfl⟩)
  · exact Or.inr ⟨q, heq.symm, rfl⟩

/-- Monotone-shrink preservation: when every non-zero member of each store of `p2` was
already in the corresponding store of `p`, disjointness carries over. -/
theorem disjoint_of_mono (p p2 : PacketIdPool)
    (hpub : ∀ x, x ≠ 0 → x ∈ poolPubIds p2 → x ∈ poolPubIds p)
    (hsub : ∀ x, x ≠ 0 → x ∈ p2.in_flight_sub → x ∈ p.in_flight_sub)
    (hunsub : ∀ x, x ≠ 0 → x ∈ p2.in_flight_unsub → x ∈ p.in_flight_unsub)
    (hd : DisjointStores p) : DisjointStores p2 := by
  intro x hx
  obtain ⟨h1, h2, h3⟩ := hd x hx
  exact ⟨fun hc => h1 ⟨hpub x hx hc.1, hsub x hx hc.2⟩,
    fun hc => h2 ⟨hpub x hx hc.1, hunsub x hx hc.2⟩,
    fun hc => h3 ⟨hsub x hx hc.1, hunsub x hx hc.2⟩⟩

theorem disjoint_insert_sub (p : PacketIdPool) (hd : DisjointStores p) (id index : Nat)
    (hfresh : p.contains id = false) :
    DisjointStores { p with in_flight_sub := p.in_flight_sub.set index id } := by
  obtain ⟨hfp, hfs, hfu⟩ := contains_false_spec p id hfresh
  intro x hx
  obtain ⟨h1, h2, h3⟩ := hd x hx
  refine ⟨fun hc => ?_, fun hc => h2 hc, fun hc => ?_⟩
  · rcases List.mem_or_eq_of_mem_set hc.2 with hmem | heq
    · exact h1 ⟨hc.1, hmem⟩
    · exact hfp (heq ▸ hc.1)
  · rcases List.mem_or_eq_of_mem_set hc.1 with hmem | heq
    · exact h3 ⟨hmem, hc.2⟩
    · exact hfu (heq ▸ hc.2)

theorem disjoint_insert_unsub (p : PacketIdPool) (hd : DisjointStores p) (id index : Nat)
    (hfresh : p.contains id = false) :
    DisjointStores { p with in_flight_unsub := p.in_flight_unsub.set index id } := by
  obtain ⟨hfp, hfs, hfu⟩ := contains_false_spec p id hfresh
  intro x hx
  obtain ⟨h1, h2, h3⟩ := hd x hx
  refine ⟨fun hc => h1 hc, fun hc => ?_, fun hc => ?_⟩
  · rcases List.mem_or_eq_of_mem_set hc.2 with hmem | heq
    · exact h2 ⟨hc.1, hmem⟩
    · exact hfp (heq ▸ hc.1)
  · rcases List.mem_or_eq_of_mem_set hc.2 with hmem | heq
    · exact h3 ⟨hc.1, hmem⟩
    · exact hfs (heq ▸ hc.1)

theorem disjoint_insert_pub (p : PacketIdPool) (hd : DisjointStores p) (id index : Nat)
    (st : PubInFlightState) (hfresh : p.contains id = false) :
    DisjointStores { p with in_flight_pub := p.in_flight_pub.set index (some ⟨id, st⟩) } := by
  obtain ⟨hfp, hfs, hfu⟩ := contains_false_spec p id hfresh
  intro x hx
  obtain ⟨h1, h2, h3⟩ := hd x hx
  refine ⟨fun hc => ?_, fun hc => ?_, fun hc => h3 hc⟩
  · rcases mem_poolPubIds_set _ _ _ _ hc.1 with hmem | ⟨q, hq, hqid⟩
    · exact h1 ⟨hmem, hc.2⟩
    · have : x = id := by cases hq; exact hqid.symm ▸ rfl
      exact hfs (this ▸ hc.2)
  · rcases mem_poolPubIds_set _ _ _ _ hc.1 with hmem | ⟨q, hq, hqid⟩
    · exact h2 ⟨hmem, hc.2⟩
    · have : x = id := by cases hq; exact hqid.symm ▸ rfl
      exact hfu (this ▸ hc.2)

theorem poolPubIds_congr (p p2 : PacketIdPool) (hp : p2.in_flight_pub = p.in_flight_pub) :
    poolPubIds p2 = poolPubIds p := by
  unfold poolPubIds
  rw [hp]

theorem disjoint_congr (p p2 : PacketIdPool)
    (hp : p2.in_flight_pub = p.in_flight_pub) (hs : p2.in_flight_sub = p.in_flight_sub)
    (hu : p2.in_flight_unsub = p.in_flight_unsub) (hd : DisjointStores p) :
    DisjointStores p2 := by
  intro x hx
  rw [poolPubIds_congr p p2 hp, hs, hu]
  exact hd x hx

theorem contains_congr (p p2 : PacketIdPool)
    (hp : p2.in_flight_pub = p.in_flight_pub) (hs : p2.in_flight_sub = p.in_flight_sub)
    (hu : p2.in_flight_unsub = p.in_flight_unsub) (x : Nat) :
    p2.contains x = p.contains x := by
  unfold PacketIdPool.contains
  rw [hp, hs, hu]

theorem nextIdAlloc_spec (p : PacketIdPool) (r : Except MError Nat) (p2 : PacketIdPool)
    (h : p.nextIdAlloc = (r, p2)) :
    p2.in_flight_pub = p.in_flight_pub ∧ p2.in_flight_sub = p.in_flight_sub
    ∧ p2.in_flight_unsub = p.in_flight_unsub
    ∧ (p.next_id ≠ 0 → p2.next_id ≠ 0)
    ∧ (∀ id, r = Except.ok id → (p.next_id ≠ 0 → id ≠ 0) ∧ p.contains id = false)
    ∧ (∀ e, r = Except.error e → e = MError.noPacketIdAvailable) := by
  have h2 : PacketIdPool.nextIdLoop 65535 p = (r, p2) := h
  have hs := nextIdLoop_stores 65535 p
  have hn := nextIdLoop_next_id_ne 65535 p
  rw [h2] at hs hn
  refine ⟨hs.1, hs.2.1, hs.2.2, hn, ?_, ?_⟩
  · intro id hr
    have ho := nextIdLoop_ok 65535 p id
    rw [h2] at ho
    exact ho hr
  · intro e hr
    have he := nextIdLoop_error 65535 p e
    rw [h2] at he
    exact he hr

theorem new_inv (npub nsub : Nat) : PoolInv (PacketIdPool.new npub nsub) := by
  refine ⟨by simp [PacketIdPool.new], ?_⟩
  intro x hx
  have hpub : x ∉ poolPubIds (PacketIdPool.new npub nsub) := by
    intro hm
    obtain ⟨q, hq, -⟩ := (mem_poolPubIds_iff _ _).mp hm
    have := List.eq_of_mem_replicate hq
    exact Option.noConfusion this
  have hsub : x ∉ (PacketIdPool.new npub nsub).in_flight_sub := by
    intro hm
    exact hx (List.eq_of_mem_replicate hm)
  have hunsub : x ∉ (PacketIdPool.new npub nsub).in_flight_unsub := by
    intro hm
    exact hx (List.eq_of_mem_replicate hm)
  exact ⟨fun hc => hpub hc.1, fun hc => hpub hc.1, fun hc => hsub hc.1⟩

theorem clear_inv (p : PacketIdPool) : PoolInv p.clear := by
  refine ⟨by simp [PacketIdPool.clear], ?_⟩
  intro x hx
  have hpub : x ∉ poolPubIds p.clear := by
    intro hm
    obtain ⟨q, hq, -⟩ := (mem_poolPubIds_iff _ _).mp hm
    simp only [PacketIdPool.clear, List.mem_map] at hq
    obtain ⟨-, -, habs⟩ := hq
    exact Option.noConfusion habs
  have hsub : x ∉ p.clear.in_flight_sub := by
    intro hm
    simp only [PacketIdPool.clear, List.mem_map] at hm
    obtain ⟨-, -, habs⟩ := hm
    exact hx habs.symm
  have hunsub : x ∉ p.clear.in_flight_unsub := by
    intro hm
    simp only [PacketIdPool.clear, List.mem_map] at hm
    obtain ⟨-, -, habs⟩ := hm
    exact hx habs.symm
  exact ⟨fun hc => hpub hc.1, fun hc => hpub hc.1, fun hc => hsub hc.1⟩

theorem nextPubId_preserves (p : PacketIdPool) (j : Bool) (hinv : PoolInv p) :
    PoolInv (p.nextPubId j).2 := by
  unfold PacketIdPool.nextPubId
  cases hpos : position (fun o => o.isNone) p.in_flight_pub with
  | none => simp only [hpos]; exact hinv
  | some index =>
    simp only [hpos]
    rcases halloc : p.nextIdAlloc with ⟨r, p2⟩
    obtain ⟨hp, hs, hu, hn, hok, herr⟩ := nextIdAlloc_spec p r p2 halloc
    cases r with
    | error e =>
      simp only [halloc]
      exact ⟨hn hinv.1, disjoint_congr p p2 hp hs hu hinv.2⟩
    | ok id =>
      simp only [halloc]
      obtain ⟨hne, hfresh⟩ := hok id rfl
      have hfresh2 : p2.contains id = false := by
        rw [contains_congr p p2 hp hs hu id]
        exact hfresh
      exact ⟨hn hinv.1,
        disjoint_insert_pub p2 (disjoint_congr p p2 hp hs hu hinv.2) id index _ hfresh2⟩

theorem nextFor_preserves (p : PacketIdPool) (k : Kind) (hinv : PoolInv p) :
    PoolInv (p.nextFor k).2 := by
  unfold PacketIdPool.nextFor
  cases hpos : position (fun id => id == 0) (p.arrayOf k) with
  | none => simp only [hpos]; exact hinv
  | some index =>
    simp only [hpos]
    rcases halloc : p.nextIdAlloc with ⟨r, p2⟩
    obtain ⟨hp, hs, hu, hn, hok, herr⟩ := nextIdAlloc_spec p r p2 halloc
    cases r with
    | error e =>
      simp only [halloc]
      exact ⟨hn hinv.1, disjoint_congr p p2 hp hs hu hinv.2⟩
    | ok id =>
      simp only [halloc]
      obtain ⟨hne, hfresh⟩ := hok id rfl
      have hfresh2 : p2.contains id = false := by
        rw [contains_congr p p2 hp hs hu id]
        exact hfresh
      have hd2 := disjoint_congr p p2 hp hs hu hinv.2
      cases k with
      | sub => exact ⟨hn hinv.1, disjoint_insert_sub p2 hd2 id index hfresh2⟩
      | unsub => exact ⟨hn hinv.1, disjoint_insert_unsub p2 hd2 id index hfresh2⟩

theorem releaseFor_preserves (p : PacketIdPool) (k : Kind) (id : Nat) (hinv : PoolInv p) :
    PoolInv (p.releaseFor k id).2 := by
  unfold PacketIdPool.releaseFor
  cases hpos : position (fun x => x == id) (p.arrayOf k) with
  | none => simp only [hpos]; exact hinv
  | some index =>
    simp only [hpos]
    cases k with
    | sub =>
      refine ⟨hinv.1, disjoint_of_mono p _ ?_ ?_ ?_ hinv.2⟩
      · exact fun x hx hm => hm
      · intro x hx hm
        rcases List.mem_or_eq_of_mem_set hm with h | h
        · exact h
        · exact absurd h hx
      · exact fun x hx hm => hm
    | unsub =>
      refine ⟨hinv.1, disjoint_of_mono p _ ?_ ?_ ?_ hinv.2⟩
      · exact fun x hx hm => hm
      · exact fun x hx hm => hm
      · intro x hx hm
        rcases List.mem_or_eq_of_mem_set hm with h | h
        · exact h
        · exact absurd h hx

theorem releasePubId_preserves (p : PacketIdPool) (id : Nat) (j : Bool) (hinv : PoolInv p) :
    PoolInv (p.releasePubId id j).2 := by
  unfold PacketIdPool.releasePubId
  cases hpos : position (fun o => match o with | some q => q.id == id | none => false)
      p.in_flight_pub with
  | none => simp only [hpos]; exact hinv
  | some index =>
    simp only [hpos]
    cases hget : p.in_flight_pub.getD index none with
    | none => simp only [hget]; exact hinv
    | some entry =>
      simp only [hget]
      split
      · refine ⟨hinv.1, disjoint_of_mono p _ ?_ ?_ ?_ hinv.2⟩
        · intro x hx hm
          rcases mem_poolPubIds_set _ _ _ _ hm with h | ⟨q, hq, -⟩
          · exact h
          · exact Option.noConfusion hq
        · exact fun x hx hm => hm
        · exact fun x hx hm => hm
      · exact hinv

theorem setPubrel_preserves (p : PacketIdPool) (id : Nat) (hinv : PoolInv p) :
    PoolInv (p.setPubrel id).2 := by
  unfold PacketIdPool.setPubrel
  cases hpos : position (fun o => match o with | some q => q.id == id | none => false)
      p.in_flight_pub with
  | none => simp only [hpos]; exact hinv
  | some index =>
    simp only [hpos]
    cases hget : p.in_flight_pub.getD index none with
    | none => simp only [hget]; exact hinv
    | some q =>
      simp only [hget]
      have hlt : index < p.in_flight_pub.length :=
        (position_some_spec _ none p.in_flight_pub index hpos).1

      have hqmem : some q ∈ p.in_flight_pub := by
        have := getD_mem none p.in_flight_pub index hlt
        rwa [hget] at this
      have hqid : q.id ∈ poolPubIds p := (mem_poolPubIds_iff _ _).mpr ⟨q, hqmem, rfl⟩
      cases hst : q.state with
      | awaitPubRec =>
        simp only [hst]
        refine ⟨hinv.1, disjoint_of_mono p _ ?_ ?_ ?_ hinv.2⟩
        · intro x hx hm
          rcases mem_poolPubIds_set _ _ _ _ hm with h | ⟨q2, hq2, hq2id⟩
          · exact h
          · cases hq2
            exact hq2id ▸ hqid
        · exact fun x hx hm => hm
        · exact fun x hx hm => hm
      | awaitPubComp => simp only [hst]; exact hinv
      | awaitPubAck => simp only [hst]; exact hinv

theorem apply_preserves_inv (p : PacketIdPool) (op : PoolOp) (hinv : PoolInv p) :
    PoolInv (PoolOp.apply p op) := by
  cases op with
  | allocPub j => exact nextPubId_preserves p j hinv
  | allocSub => exact nextFor_preserves p .sub hinv
  | allocUnsub => exact nextFor_preserves p .unsub hinv
  | releasePub id j => exact releasePubId_preserves p id j hinv
  | releaseSub id => exact releaseFor_preserves p .sub id hinv
  | releaseUnsub id => exact releaseFor_preserves p .unsub id hinv
  | setPubrel id => exact setPubrel_preserves p id hinv
  | clear => exact clear_inv p

theorem runPool_inv (npub nsub : Nat) (ops : List PoolOp) :
    PoolInv (runPool npub nsub ops) := by
  unfold runPool
  have h : ∀ (l : List PoolOp) (p : PacketIdPool), PoolInv p →
      PoolInv (l.foldl PoolOp.apply p) := by
    intro l
    induction l with
    | nil => exact fun p hp => hp
    | cons op rest ih =>
      intro p hp
      exact ih _ (apply_preserves_inv p op hp)
  exact h ops _ (new_inv npub nsub)

theorem nextFor_result (p : PacketIdPool) (k : Kind) (hne : p.next_id ≠ 0) :
    (p.nextFor k).1 = Except.error MError.noPacketIdAvailable
    ∨ ∃ id, (p.nextFor k).1 = Except.ok id ∧ id ≠ 0 ∧ p.contains id = false := by
  unfold PacketIdPool.nextFor
  cases hpos : position (fun id => id == 0) (p.arrayOf k) with
  | none => left; simp only [hpos]
  | some index =>
    simp only [hpos]
    rcases halloc : p.nextIdAlloc with ⟨r, p2⟩
    obtain ⟨hp, hs, hu, hn, hok, herr⟩ := nextIdAlloc_spec p r p2 halloc
    cases r with
    | error e =>
      left
      simp only [halloc]
      rw [herr e rfl]
    | ok id =>
      right
      obtain ⟨h1, h2⟩ := hok id rfl
      exact ⟨id, by simp only [halloc], h1 hne, h2⟩

theorem nextPubId_result (p : PacketIdPool) (j : Bool) (hne : p.next_id ≠ 0) :
    (p.nextPubId j).1 = Except.error MError.noPacketIdAvailable
    ∨ ∃ id, (p.nextPubId j).1 = Except.ok id ∧ id ≠ 0 ∧ p.contains id = false := by
  unfold PacketIdPool.nextPubId
  cases hpos : position (fun o => o.isNone) p.in_flight_pub with
  | none => left; simp only [hpos]
  | some index =>
    simp only [hpos]
    rcases halloc : p.nextIdAlloc with ⟨r, p2⟩
    obtain ⟨hp, hs, hu, hn, hok, herr⟩ := nextIdAlloc_spec p r p2 halloc
    cases r with
    | error e =>
      left
      simp only [halloc]
      rw [herr e rfl]
    | ok id =>
      right
      obtain ⟨h1, h2⟩ := hok id rfl
      exact ⟨id, by simp only [halloc], h1 hne, h2⟩

/-- C8: over every sequence of allocate/release operations on the packet-id pool,
(a) a successful allocation never returns 0 (and, with (d), never a duplicate: the
returned id is contained in no store at the moment of allocation); (b) no non-zero id is
present in two of the three purpose stores simultaneously; (c) `clear()` resets the
`next_id` cursor to 1; (d) an allocation that cannot produce such an id fails with
exactly `NoPacketIdAvailable`. -/
theorem pool_invariants_spec (npub nsub : Nat) (ops : List PoolOp) :
    DisjointStores (runPool npub nsub ops)
    ∧ (∀ j : Bool,
        ((runPool npub nsub ops).nextPubId j).1 = Except.error MError.noPacketIdAvailable
        ∨ ∃ id, ((runPool npub nsub ops).nextPubId j).1 = Except.ok id ∧ id ≠ 0
            ∧ (runPool npub nsub ops).contains id = false)
    ∧ (∀ k : Kind,
        ((runPool npub nsub ops).nextFor k).1 = Except.error MError.noPacketIdAvailable
        ∨ ∃ id, ((runPool npub nsub ops).nextFor k).1 = Except.ok id ∧ id ≠ 0
            ∧ (runPool npub nsub ops).contains id = false)
    ∧ ((runPool npub nsub ops).clear).next_id = 1 := by
  have hinv := runPool_inv npub nsub ops
  exact ⟨hinv.2, fun j => nextPubId_result _ j hinv.1,
    fun k => nextFor_result _ k hinv.1, rfl⟩

/-- Witness for C8 after the concrete run [allocSub] on a 2/2-capacity pool: id 1 is
allocated into the sub store only, and clear resets the cursor. -/
theorem pool_invariants_spec_witness :
    ¬((1 : Nat) ∈ poolPubIds (runPool 2 2 [PoolOp.allocSub])
        ∧ (1 : Nat) ∈ (runPool 2 2 [PoolOp.allocSub]).in_flight_sub)
    ∧ ((runPool 2 2 [PoolOp.allocSub]).clear).next_id = 1 :=
  ⟨((pool_invariants_spec 2 2 [PoolOp.allocSub]).1 1 (by decide)).1,
   (pool_invariants_spec 2 2 [PoolOp.allocSub]).2.2.2⟩

end MqttClient
